import Mathlib

/-!
Verification of the wolf-comm repository's natural-language specification.

The development shallowly embeds the two source files of the repository,
`wolf.py` and `wolf_comm/token_auth.py`, as executable Lean definitions:

* Python `datetime` values are modelled as `Int` timestamps; `isoformat`
  renders an `Int` as its decimal string and `fromisoformat` parses it back
  (the round-trip property and "garbage does not parse" are what the code
  relies on, not the concrete ISO-8601 grammar).
* Python JSON values are modelled by the inductive `Wolf.Json`; `json.loads`
  is modelled by a fuel-based recursive-descent parser faithful to the JSON
  grammar (floats and `\u` escapes are not modelled; no claim exercises them).
* Python exceptions are modelled with `Except` over `Wolf.PyErr`, which
  distinguishes `ValueError` (incl. `json.JSONDecodeError`), `KeyError`,
  `TypeError` and `AttributeError`, because the source's `except` clauses
  catch some of these and let the others escape.
* Python `dict`s are modelled as insertion-ordered association lists with
  first-occurrence lookup and in-place update, matching CPython semantics.
-/

namespace Wolf

/-! ## Python string primitives -/

/-- Python whitespace characters used by `str.strip` and `str.split(None)`. -/
def pyWsChar (c : Char) : Bool :=
  c = ' ' || c = '\t' || c = '\n' || c = '\r' || c = '\x0b' || c = '\x0c'

/-- Python `str.strip()` with no argument. -/
def pyStrip (s : String) : String :=
  String.mk (((s.data.dropWhile pyWsChar).reverse.dropWhile pyWsChar).reverse)

/-- ASCII lower-casing of one character, as Python `str.lower` does on ASCII. -/
def pyLowerChar (c : Char) : Char :=
  if 'A' ≤ c ∧ c ≤ 'Z' then Char.ofNat (c.toNat + 32) else c

/-- Python `str.lower()` restricted to ASCII input. -/
def pyLowerStr (s : String) : String :=
  String.mk (s.data.map pyLowerChar)

/-- Python `s.split(None, 1)` for an already-stripped string `s`
(`_parse_set_payload` strips its payload before splitting, so leading and
trailing whitespace never occur on the input of this model). -/
def pySplitNone1 (s : String) : List String :=
  let cs := s.data
  let tok := cs.takeWhile (fun c => !pyWsChar c)
  let rest := (cs.drop tok.length).dropWhile pyWsChar
  if rest.isEmpty then [String.mk tok] else [String.mk tok, String.mk rest]

/-! ## Python exceptions -/

/-- The Python exception kinds the embedded code can raise.  The source's
`except` clauses catch `ValueError` (of which `json.JSONDecodeError` is a
subclass) and `KeyError` selectively; `TypeError` and `AttributeError` are
never caught and escape to the caller. -/
inductive PyErr where
  | valueError (msg : String)
  | keyError (key : String)
  | typeError
  | attributeError
  deriving DecidableEq, Repr

/-! ## JSON values and `json.loads` -/

/-- JSON values as produced by Python's `json.loads`.  `null` doubles as
Python `None` (which is exactly how `json.loads` decodes it, and how
`dict.get` reports a missing key).  Numbers are modelled as integers;
no input relevant to a claim contains a float. -/
inductive Json where
  | null
  | bool (b : Bool)
  | num (n : Int)
  | str (s : String)
  | arr (xs : List Json)
  | obj (kvs : List (String × Json))
  deriving Repr

/-- First-occurrence lookup in an insertion-ordered association list
(CPython `dict` keys are unique, so first = only). -/
def dLookup {α : Type} : List (String × α) → String → Option α
  | [], _ => none
  | (k, v) :: t, key => if k = key then some v else dLookup t key

/-- CPython `dict` item assignment: replace the value at an existing key in
place, otherwise append the pair at the end. -/
def dSet {α : Type} : List (String × α) → String → α → List (String × α)
  | [], key, v => [(key, v)]
  | (k, w) :: t, key, v => if k = key then (k, v) :: t else (k, w) :: dSet t key v

/-- JSON whitespace skipping. -/
def skipWs : List Char → List Char
  | c :: r => if c = ' ' || c = '\t' || c = '\n' || c = '\r' then skipWs r else c :: r
  | [] => []

/-- Parse the body of a JSON string literal, the opening quote already
consumed.  `\u` escapes are not modelled (no claim input contains one). -/
def pStringAux : List Char → List Char → Option (String × List Char)
  | [], _ => none
  | c :: r, acc =>
    if c = '"' then some (String.mk acc.reverse, r)
    else if c = '\\' then
      match r with
      | [] => none
      | e :: r₂ =>
        let m : Option Char :=
          if e = '"' then some '"'
          else if e = '\\' then some '\\'
          else if e = '/' then some '/'
          else if e = 'n' then some '\n'
          else if e = 't' then some '\t'
          else if e = 'r' then some '\r'
          else if e = 'b' then some '\x08'
          else if e = 'f' then some '\x0c'
          else none
        match m with
        | none => none
        | some ch => pStringAux r₂ (ch :: acc)
    else pStringAux r (c :: acc)

/-- Decimal digits to a natural number. -/
def digitsToNat (ds : List Char) : Nat :=
  ds.foldl (fun a c => a * 10 + (c.toNat - 48)) 0

/-- Parse a JSON integer literal.  A fraction or exponent part is rejected:
floats are outside this model. -/
def pNumber (cs : List Char) : Option (Json × List Char) :=
  let p := match cs with
    | '-' :: t => (true, t)
    | _ => (false, cs)
  let ds := p.2.takeWhile Char.isDigit
  if ds.isEmpty then none
  else
    let rest := p.2.drop ds.length
    match rest with
    | '.' :: _ => none
    | 'e' :: _ => none
    | 'E' :: _ => none
    | _ =>
      let n : Int := digitsToNat ds
      some (.num (if p.1 then -n else n), rest)

mutual

/-- Fuel-based JSON value parser (recursive descent, as CPython's pure-Python
`json` scanner). -/
def pValue : Nat → List Char → Option (Json × List Char)
  | 0, _ => none
  | fuel + 1, cs =>
    match skipWs cs with
    | [] => none
    | '\x7b' :: r => pObjItems fuel r [] true
    | '[' :: r => pArrItems fuel r [] true
    | '"' :: r => (pStringAux r []).map (fun p => (Json.str p.1, p.2))
    | 't' :: 'r' :: 'u' :: 'e' :: r => some (.bool true, r)
    | 'f' :: 'a' :: 'l' :: 's' :: 'e' :: r => some (.bool false, r)
    | 'n' :: 'u' :: 'l' :: 'l' :: r => some (.null, r)
    | cs' => pNumber cs'

/-- Parse the members of a JSON object, the opening brace already consumed.
Duplicate keys overwrite in place, as CPython builds the `dict`. -/
def pObjItems : Nat → List Char → List (String × Json) → Bool → Option (Json × List Char)
  | 0, _, _, _ => none
  | fuel + 1, cs, acc, isFirst =>
    match skipWs cs with
    | '\x7d' :: r => if isFirst then some (.obj acc, r) else none
    | '"' :: r =>
      match pStringAux r [] with
      | none => none
      | some (key, r₂) =>
        match skipWs r₂ with
        | ':' :: r₃ =>
          match pValue fuel r₃ with
          | none => none
          | some (v, r₄) =>
            let acc' := dSet acc key v
            match skipWs r₄ with
            | ',' :: r₅ => pObjItems fuel r₅ acc' false
            | '\x7d' :: r₅ => some (.obj acc', r₅)
            | _ => none
        | _ => none
    | _ => none

/-- Parse the elements of a JSON array, the opening bracket already consumed. -/
def pArrItems : Nat → List Char → List Json → Bool → Option (Json × List Char)
  | 0, _, _, _ => none
  | fuel + 1, cs, acc, isFirst =>
    match skipWs cs with
    | ']' :: r => if isFirst then some (.arr acc.reverse, r) else none
    | cs' =>
      match pValue fuel cs' with
      | none => none
      | some (v, r) =>
        match skipWs r with
        | ',' :: r₂ => pArrItems fuel r₂ (v :: acc) false
        | ']' :: r₂ => some (.arr (v :: acc).reverse, r₂)
        | _ => none

end

/-- Model of Python `json.loads`: parse one value and require only
whitespace to remain. -/
def json_loads (s : String) : Option Json :=
  match pValue (s.length + 2) s.data with
  | some (j, rest) => if (skipWs rest).isEmpty then some j else none
  | none => none

/-- Python truthiness of a JSON-decoded value (`if not x`). -/
def pyTruthy : Json → Bool
  | .null => false
  | .bool b => b
  | .num n => n != 0
  | .str s => s ≠ ""
  | .arr xs => !xs.isEmpty
  | .obj kvs => !kvs.isEmpty

/-! ## Timestamps

Python `datetime` values are modelled as `Int` timestamps.  `isoformat`
renders the integer in decimal and `fromisoformat` parses it back; the
code only relies on the round-trip and on unparseable strings raising
`ValueError`, both of which the model preserves. -/

/-- Model of `datetime.isoformat`. -/
def isoformat (t : Int) : String := toString t

/-- Model of `datetime.fromisoformat` on a string argument: `none` stands
for the `ValueError` it raises on an unparseable stamp. -/
def fromisoformat (s : String) : Option Int := s.toInt?

/-! ## `wolf_comm/token_auth.py` — token cache and login entry point -/

/-- The `Tokens` object of `token_auth.py`: one access token plus its
absolute expiry instant (`expire_date = now + expires_in` at construction).
`access_token` is whatever JSON value the cache entry held. -/
structure Tokens where
  access_token : Json
  expire_date : Int
  deriving Repr

/-- `Tokens.is_expired`: `self.expire_date < datetime.datetime.now()`. -/
def Tokens.is_expired (t : Tokens) (now : Int) : Bool :=
  t.expire_date < now

/-- `Tokens.to_cache_entry`. -/
def Tokens.to_cache_entry (t : Tokens) : Json :=
  .obj [("access_token", t.access_token), ("expire_date", .str (isoformat t.expire_date))]

/-- `Tokens.from_cache_entry(entry)`.  The subscripts raise `KeyError` on a
missing key of a dict and `TypeError` on any non-dict entry;
`fromisoformat` raises `ValueError` on an unparseable string stamp and
`TypeError` on a non-string argument.  The caller catches only `KeyError`
and `ValueError`. -/
def Tokens.from_cache_entry (entry : Json) : Except PyErr Tokens :=
  match entry with
  | .obj kvs =>
    match dLookup kvs "expire_date" with
    | none => .error (.keyError "expire_date")
    | some ed =>
      match ed with
      | .str s =>
        match fromisoformat s with
        | none => .error (.valueError "Invalid isoformat string")
        | some t =>
          match dLookup kvs "access_token" with
          | none => .error (.keyError "access_token")
          | some tok => .ok ⟨tok, t⟩
      | _ => .error .typeError
  | _ => .error .typeError

/-- `TokenAuth._read_cache`: the cache-file content (`none` = missing file).
`FileNotFoundError` and `json.JSONDecodeError` are caught and yield an empty
dict; any other parse result is returned as-is — including non-object JSON. -/
def read_cache (file : Option String) : Json :=
  match file with
  | none => .obj []
  | some raw => (json_loads raw).getD (.obj [])

/-- `TokenAuth._load_cached_tokens`: look the username up in the parsed
cache and deserialize the entry, treating a falsy entry as absent and
catching only `KeyError`/`ValueError` from `Tokens.from_cache_entry`.
`cache.get(...)` on a non-dict cache raises `AttributeError`. -/
def load_cached_tokens (file : Option String) (username : String) :
    Except PyErr (Option Tokens) :=
  match read_cache file with
  | .obj kvs =>
    let entry := (dLookup kvs username).getD .null
    if pyTruthy entry then
      match Tokens.from_cache_entry entry with
      | .ok t => .ok (some t)
      | .error (.keyError _) => .ok none
      | .error (.valueError _) => .ok none
      | .error e => .error e
    else .ok none
  | _ => .error .attributeError

/-- `TokenAuth._save_cached_tokens`: re-read the cache, set the entry for
the username, and serialize.  Returns the new cache object (the file write
itself is an I/O effect whose failure is caught and logged). -/
def save_cached_tokens (file : Option String) (username : String) (tokens : Tokens) :
    Except PyErr Json :=
  match read_cache file with
  | .obj kvs => .ok (.obj (dSet kvs username tokens.to_cache_entry))
  | _ => .error .attributeError

/-- The cache-consulting prefix of `TokenAuth.token`, given the already
loaded cache entry for the username.  `fresh` abstracts the whole
browser-login sequence inside the `try` block (its three HTTP exchanges are
external); any of its failures surfaces as `InvalidAuth`, modelled as
`Except Unit`.  The `Bool` in the result records whether the cached token
was returned (`true` = no network call was made). -/
def token_flow (cached : Option Tokens) (now : Int) (fresh : Except Unit Tokens) :
    Except Unit (Tokens × Bool) :=
  match cached with
  | some c =>
    if !c.is_expired now then .ok (c, true)
    else fresh.map (fun t => (t, false))
  | none => fresh.map (fun t => (t, false))

/-! ## `wolf.py` — parameter catalog and write path -/

/-- A catalog entry as summarized and cached by `wolf.py` (the fields of
`summarize_parameters`). -/
structure Parameter where
  name : String
  parameter_id : Int
  value_id : Int
  bundle_id : Int
  read_only : Bool
  parent : String
  deriving DecidableEq, Repr

/-- A live reading (`summarize_values` fields). -/
structure Value where
  value_id : Int
  value : String
  state : String
  deriving DecidableEq, Repr

/-- The device-protocol write call `_set_parameter` would issue:
`client.write_value(gateway_id, system_id, target.bundle_id,
\x7bVALUE_ID: target.value_id, STATE: str(value)\x7d)`.  The value is taken
already converted by `str`. -/
structure WriteCall where
  gateway_id : Int
  system_id : Int
  bundle_id : Int
  value_id : Int
  state : String
  deriving DecidableEq, Repr

/-- `_set_parameter`: resolve the target by first exact name match
(`next((param for param in parameters if param.name == name), None)`);
on a miss log a warning and return without a write.  The result pairs the
issued write call (if any) with whether the warning was logged.  The
function is total: the miss path returns normally. -/
def set_parameter (gateway_id system_id : Int) (parameters : List Parameter)
    (name value : String) : Option WriteCall × Bool :=
  match parameters.find? (fun p => p.name == name) with
  | none => (none, true)
  | some t => (some ⟨gateway_id, system_id, t.bundle_id, t.value_id, value⟩, false)

/-! ## `wolf.py` — MQTT command payload parsing -/

/-- `_parse_set_payload`.  Only `json.JSONDecodeError` is caught (falling
back to the `"<name> <value>"` text form); `data.get` on a decoded non-dict
raises `AttributeError`, which escapes. -/
def parse_set_payload (payload : String) : Except PyErr (Json × Json) :=
  let p := pyStrip payload
  if p = "" then .error (.valueError "empty payload")
  else
    match json_loads p with
    | none =>
      match pySplitNone1 p with
      | [a, b] => .ok (.str a, .str b)
      | _ => .error (.valueError "expected parameter value payload")
    | some data =>
      match data with
      | .obj kvs =>
        let n₁ := (dLookup kvs "name").getD .null
        let n₂ := (dLookup kvs "parameter").getD .null
        let n₃ := (dLookup kvs "parameter_name").getD .null
        let name := if pyTruthy n₁ then n₁ else if pyTruthy n₂ then n₂ else n₃
        let value := (dLookup kvs "value").getD .null
        match name with
        | .null => .error (.valueError "JSON payload must contain name and value")
        | _ =>
          match value with
          | .null => .error (.valueError "JSON payload must contain name and value")
          | _ => .ok (name, value)
      | _ => .error .attributeError

/-- The `_on_message` handler produced by `_create_mqtt_set_handler`, up to
the parse step: a `ValueError` from `_parse_set_payload` is caught, logged
and dropped (`.ok none`); a successful parse proceeds to the write path
(`.ok (some ...)`); any other exception escapes the handler. -/
def mqtt_on_message (payload : String) : Except PyErr (Option (Json × Json)) :=
  match parse_set_payload payload with
  | .ok nv => .ok (some nv)
  | .error (.valueError _) => .ok none
  | .error e => .error e

/-! ## `wolf.py` — MQTT URL parsing and settings resolution

`urllib.parse.urlparse` is modelled after CPython's `urlsplit`/`_hostinfo`
for the fields `wolf.py` reads: `scheme`, `hostname` and `port`.  Bracketed
IPv6 hosts, userinfo passwords and non-decimal ports are outside the model
(no claim exercises them); userinfo before `@` and the digit/range checks of
the `port` property are kept. -/

/-- Characters allowed in a URL scheme. -/
def schemeChar (c : Char) : Bool :=
  c.isAlpha || c.isDigit || c = '+' || c = '-' || c = '.'

/-- CPython scheme splitting: a leading `letter schemeChar* :` is the
scheme; otherwise the URL has none. -/
def splitScheme (cs : List Char) : Option (List Char) × List Char :=
  match cs.findIdx? (· = ':') with
  | some i =>
    if 0 < i ∧ (cs.headD ' ').isAlpha ∧ (cs.take i).all schemeChar then
      (some (cs.take i), cs.drop (i + 1))
    else (none, cs)
  | none => (none, cs)

/-- The parsed URL fields `wolf.py` consults. -/
structure UrlParts where
  scheme : String
  hostname : Option String
  portStr : Option String
  deriving DecidableEq, Repr

/-- Model of `urllib.parse.urlparse(url, scheme=defaultScheme)` restricted
to `scheme`/`hostname`/the raw port string. -/
def pyUrlparse (url : String) (defaultScheme : String) : UrlParts :=
  let sp := splitScheme url.data
  let scheme := match sp.1 with
    | some s => String.mk (s.map pyLowerChar)
    | none => defaultScheme
  let rest := sp.2
  let netloc :=
    if rest.take 2 = ['/', '/'] then
      (rest.drop 2).takeWhile (fun c => !(c = '/' || c = '?' || c = '#'))
    else []
  let hostinfo := (netloc.reverse.takeWhile (· ≠ '@')).reverse
  let hostRaw := hostinfo.takeWhile (· ≠ ':')
  let portRaw := hostinfo.drop hostRaw.length
  let portStr := match portRaw with
    | ':' :: t => if t.isEmpty then none else some (String.mk t)
    | _ => none
  let hostname :=
    if hostRaw.isEmpty then none else some (String.mk (hostRaw.map pyLowerChar))
  ⟨scheme, hostname, portStr⟩

/-- The `port` property of a `ParseResult`: decimal digits in range
`0..65535`, else `ValueError`. -/
def urlPort (portStr : Option String) : Except PyErr (Option Int) :=
  match portStr with
  | none => .ok none
  | some s =>
    if s.data ≠ [] ∧ s.data.all Char.isDigit then
      let n : Int := digitsToNat s.data
      if n ≤ 65535 then .ok (some n) else .error (.valueError "Port out of range 0-65535")
    else .error (.valueError "Port could not be cast to integer value")

/-- `_parse_mqtt_url`: parse once; if no hostname was found, re-parse with
`//` prefixed and default scheme `mqtt`; absent host is a `ValueError`;
default ports 8883 (`mqtts`/`ssl`) and 1883. -/
def parse_mqtt_url (value : String) : Except PyErr (String × Int × String) :=
  let p₀ := pyUrlparse value ""
  let p := if p₀.hostname.isNone then pyUrlparse ("//" ++ value) "mqtt" else p₀
  match p.hostname with
  | none => .error (.valueError "Invalid MQTT URL; unable to determine host")
  | some host =>
    let scheme := pyLowerStr (if p.scheme = "" then "mqtt" else p.scheme)
    match urlPort p.portStr with
    | .error e => .error e
    | .ok (some pt) => .ok (host, pt, scheme)
    | .ok none =>
      .ok (host, if scheme = "mqtts" ∨ scheme = "ssl" then 8883 else 1883, scheme)

/-- The `mqtt` section of `credentials.json` as `_load_credentials` returns
it: three keys whose values may each be `None`. -/
structure MqttSection where
  url : Option String
  username : Option String
  password : Option String
  deriving DecidableEq, Repr

/-- The resolved `MqttSettings` mapping of `wolf.py`. -/
structure MqttSettings where
  host : String
  port : Int
  username : Option String
  password : Option String
  use_tls : Bool
  deriving DecidableEq, Repr

/-- `_resolve_mqtt_settings`: absent section or absent/empty URL resolve to
no settings; the URL is parsed (errors escape); a username that is not a
string, or strips to `""` or case-insensitively `"anonymous"`, is dropped;
an empty-string password is dropped. -/
def resolve_mqtt_settings (section? : Option MqttSection) :
    Except PyErr (Option MqttSettings) :=
  match section? with
  | none => .ok none
  | some sec =>
    match sec.url with
    | none => .ok none
    | some u =>
      if u = "" then .ok none
      else
        match parse_mqtt_url u with
        | .error e => .error e
        | .ok (host, port, scheme) =>
          let username := match sec.username with
            | some s =>
              let s' := pyStrip s
              if pyLowerStr s' = "anonymous" ∨ s' = "" then none else some s'
            | none => none
          let password := match sec.password with
            | some "" => none
            | x => x
          .ok (some ⟨host, port, username, password, scheme = "mqtts" ∨ scheme = "ssl"⟩)

/-! ## `wolf.py` — MQTT connection lifecycle -/

/-- Observable MQTT client actions. -/
inductive MqttEvent where
  | connect (host : String) (port : Int)
  | publish (topic : String) (payload : String)
  | disconnect
  deriving DecidableEq, Repr

/-- Whether an event is a broker connection attempt. -/
def MqttEvent.isConnect : MqttEvent → Bool
  | .connect _ _ => true
  | _ => false

/-- The ad-hoc state `_configure_mqtt_client` attaches to the paho client:
`_wolf_mqtt_settings`, `_wolf_connected`, `_wolf_persistent`. -/
structure MqttClient where
  settings : Option MqttSettings
  connected : Bool
  persistent : Bool
  deriving DecidableEq, Repr

/-- `_configure_mqtt_client`. -/
def configure_mqtt_client (s : MqttSettings) : MqttClient :=
  ⟨some s, false, false⟩

/-- `_ensure_mqtt_connected`: a no-op when `_wolf_connected` is set;
otherwise `RuntimeError` without settings, else connect and set the flag. -/
def ensure_mqtt_connected (c : MqttClient) :
    Except String (MqttClient × List MqttEvent) :=
  if c.connected then .ok (c, [])
  else
    match c.settings with
    | none => .error "MQTT client is missing configuration."
    | some s => .ok (⟨some s, true, c.persistent⟩, [.connect s.host s.port])

/-- `_publish_status`: ensure the connection (failures escape, skipping the
`finally`), publish inside `try/except` (`pubFails` abstracts a raising
`publish`; the exception is logged and swallowed), and in `finally`
disconnect when not `_wolf_persistent`.  Note the source never clears
`_wolf_connected` on disconnect. -/
def publish_status (payload : String) (pubFails : Bool) (c : MqttClient) :
    Except String (MqttClient × List MqttEvent) :=
  match ensure_mqtt_connected c with
  | .error e => .error e
  | .ok (c₁, evs₁) =>
    let evs₂ := if pubFails then [] else [MqttEvent.publish "wolf/status" payload]
    let evs₃ := if c₁.persistent then [] else [MqttEvent.disconnect]
    .ok (c₁, evs₁ ++ evs₂ ++ evs₃)

/-! ## `wolf.py` — status building -/

/-- A value of the `status` dict: the `"time"` key holds a string, every
parent grouping holds a nested dict. -/
inductive StatusVal where
  | str (s : String)
  | dict (d : List (String × String))
  deriving DecidableEq, Repr

/-- The `status` dict: insertion-ordered with unique keys. -/
abbrev Status := List (String × StatusVal)

/-- The parameter lookup of `_build_status`:
`next((x for x in parameters if x.value_id == val.value_id), None)`. -/
def findParam (ps : List Parameter) (vid : Int) : Option Parameter :=
  ps.find? (fun p => p.value_id == vid)

/-- One iteration of the `_build_status` loop:
`status.setdefault(par.parent, \x7b\x7d)[par.name] = val.value`.
When `par.parent` already maps to a string (the pre-seeded `"time"` entry),
the item assignment on a `str` raises `TypeError`. -/
def buildStep (ps : List Parameter) (st : Status) (v : Value) : Except PyErr Status :=
  match findParam ps v.value_id with
  | none => .ok st
  | some par =>
    match dLookup st par.parent with
    | some (.str _) => .error .typeError
    | some (.dict d) => .ok (dSet st par.parent (.dict (dSet d par.name v.value)))
    | none => .ok (dSet st par.parent (.dict (dSet [] par.name v.value)))

/-- The `for val in values` loop of `_build_status`. -/
def buildFold (ps : List Parameter) : Status → List Value → Except PyErr Status
  | st, [] => .ok st
  | st, v :: vs =>
    match buildStep ps st v with
    | .error e => .error e
    | .ok st' => buildFold ps st' vs

/-- `_build_status(parameters, values)`: seed the dict with the formatted
current time (passed in as the already formatted string `now`) and fold the
values. -/
def build_status (now : String) (ps : List Parameter) (vs : List Value) :
    Except PyErr Status :=
  buildFold ps [("time", StatusVal.str now)] vs

/-! ## `wolf.py` — system context cache -/

/-- `_load_cached_system_context` (`none` file = missing).  Unparseable JSON
is caught; a falsy/absent `expires_at` is a miss; an unparseable string
stamp is a miss (`ValueError` caught); a hit requires `now < expires_at`.
`cache.get` on a decoded non-dict raises `AttributeError`, and
`fromisoformat` on a non-string stamp raises `TypeError`; neither is
caught. -/
def load_cached_system_context (file : Option String) (now : Int) :
    Except PyErr (Option Json) :=
  match file with
  | none => .ok none
  | some raw =>
    match json_loads raw with
    | none => .ok none
    | some cache =>
      match cache with
      | .obj kvs =>
        let ea := (dLookup kvs "expires_at").getD .null
        if pyTruthy ea then
          match ea with
          | .str s =>
            match fromisoformat s with
            | none => .ok none
            | some t => if now ≥ t then .ok none else .ok (some cache)
          | _ => .error .typeError
        else .ok none
      | _ => .error .attributeError

/-! ## Derived notions used to state the claims -/

/-- The `(parent, name)` path a value resolves to through the catalog. -/
def pathOf (ps : List Parameter) (v : Value) : Option (String × String) :=
  (findParam ps v.value_id).map (fun p => (p.parent, p.name))

/-- The parent grouping a value resolves to. -/
def parentOf (ps : List Parameter) (v : Value) : Option String :=
  (findParam ps v.value_id).map (fun p => p.parent)

/-- Lookup of `status[k][n]` when `k` holds a nested dict. -/
def innerLookup (st : Status) (k n : String) : Option String :=
  match dLookup st k with
  | some (.dict d) => dLookup d n
  | _ => none

/-- Invariant of the status dict during the `_build_status` loop: `"time"`
still holds the seeded string and every other key holds a nested dict. -/
def StatusInv (now : String) (st : Status) : Prop :=
  dLookup st "time" = some (.str now) ∧
    ∀ k x, k ≠ "time" → dLookup st k = some x → ∃ d, x = StatusVal.dict d

/-- Equality of two optional status values as Python `==` compares them:
missing = missing, strings by equality, nested dicts extensionally. -/
def statusValEq : Option StatusVal → Option StatusVal → Prop
  | none, none => True
  | some (.str a), some (.str b) => a = b
  | some (.dict d₁), some (.dict d₂) => ∀ n, dLookup d₁ n = dLookup d₂ n
  | _, _ => False

/-- Python `==` of two status dicts after deleting the `"time"` key. -/
def statusEqIgnoringTime (s₁ s₂ : Status) : Prop :=
  ∀ k, k ≠ "time" → statusValEq (dLookup s₁ k) (dLookup s₂ k)

/-- Lift of `statusEqIgnoringTime` to `_build_status` results: both raise,
or both return dicts equal up to the timestamp. -/
def exceptStatusEqIgnoringTime : Except PyErr Status → Except PyErr Status → Prop
  | .error _, .error _ => True
  | .ok s₁, .ok s₂ => statusEqIgnoringTime s₁ s₂
  | _, _ => False

/-- No two distinct supplied values resolve to the same `(parent, name)`
path: the hypothesis under which status building is order-independent. -/
def PathInj (ps : List Parameter) (vs : List Value) : Prop :=
  ∀ v₁ ∈ vs, ∀ v₂ ∈ vs, ∀ k n,
    pathOf ps v₁ = some (k, n) → pathOf ps v₂ = some (k, n) → v₁ = v₂

/-- No supplied value resolves to a parameter whose parent is `"time"`. -/
def NoTimeParent (ps : List Parameter) (vs : List Value) : Prop :=
  ∀ v ∈ vs, parentOf ps v ≠ some "time"

/-- The final value `status[k][n]` holds after folding `vs` over an initial
inner value `init`: the last matching write wins. -/
def lastWrite (ps : List Parameter) (vs : List Value) (k n : String)
    (init : Option String) : Option String :=
  vs.foldl (fun acc v => if pathOf ps v = some (k, n) then some v.value else acc) init

/-! # Lemmas -/

/-- Lookup after a dict update: the updated key reads the new value and
every other key is unchanged. -/
theorem dLookup_dSet {α : Type} (l : List (String × α)) (k k' : String) (v : α) :
    dLookup (dSet l k v) k' = if k' = k then some v else dLookup l k' := by
  induction l with
  | nil =>
    rcases eq_or_ne k' k with h | h
    · subst h; simp [dSet, dLookup]
    · simp [dSet, dLookup, h, Ne.symm h]
  | cons hd t ih =>
    obtain ⟨a, b⟩ := hd
    by_cases h₁ : a = k
    · subst h₁
      rcases eq_or_ne k' a with h₂ | h₂
      · subst h₂; simp [dSet, dLookup]
      · simp [dSet, dLookup, h₂, Ne.symm h₂]
    · rcases eq_or_ne a k' with h₂ | h₂
      · subst h₂
        simp [dSet, dLookup, h₁, Ne.symm h₁]
      · simp [dSet, dLookup, h₁, h₂, ih]

/-- Inner lookup through a parent key holding a nested dict. -/
theorem innerLookup_of_dict {st : Status} {k : String} {d : List (String × String)}
    (h : dLookup st k = some (.dict d)) (n : String) :
    innerLookup st k n = dLookup d n := by
  unfold innerLookup
  rw [h]

/-- Inner lookup through an absent parent key. -/
theorem innerLookup_of_none {st : Status} {k : String}
    (h : dLookup st k = none) (n : String) : innerLookup st k n = none := by
  unfold innerLookup
  rw [h]

/-- A value with no matching parameter is skipped. -/
theorem buildStep_skip (ps : List Parameter) (st : Status) (v : Value)
    (h : findParam ps v.value_id = none) : buildStep ps st v = .ok st := by
  simp [buildStep, h]

/-- Effect of one loop iteration on a status dict satisfying the invariant,
for a value resolving to a parameter whose parent is not `"time"`: the step
succeeds, preserves the invariant, writes exactly the resolved path and adds
exactly the resolved parent key. -/
theorem buildStep_ok (ps : List Parameter) (st : Status) (v : Value) (par : Parameter)
    (now : String) (hfind : findParam ps v.value_id = some par)
    (hpar : par.parent ≠ "time") (hinv : StatusInv now st) :
    ∃ st', buildStep ps st v = .ok st' ∧ StatusInv now st' ∧
      (∀ k n, innerLookup st' k n =
        if pathOf ps v = some (k, n) then some v.value else innerLookup st k n) ∧
      (∀ k, (dLookup st' k).isSome ↔ ((dLookup st k).isSome ∨ parentOf ps v = some k)) := by
  have hpath : pathOf ps v = some (par.parent, par.name) := by simp [pathOf, hfind]
  have hparent : parentOf ps v = some par.parent := by simp [parentOf, hfind]
  -- the current inner dict at the parent key (or `[]` when absent)
  have hcur : ∃ dOld, dLookup st par.parent = some (.dict dOld) ∨
      (dLookup st par.parent = none ∧ dOld = []) := by
    rcases e : dLookup st par.parent with _ | x
    · exact ⟨[], Or.inr ⟨rfl, rfl⟩⟩
    · rcases x with s | d
      · rcases hinv.2 par.parent (.str s) hpar e with ⟨d, hd⟩
        exact absurd hd (by simp)
      · exact ⟨d, Or.inl rfl⟩
  obtain ⟨dOld, hcase⟩ := hcur
  have hstep : buildStep ps st v
      = .ok (dSet st par.parent (.dict (dSet dOld par.name v.value))) := by
    rcases hcase with e | ⟨e, rfl⟩ <;> simp [buildStep, hfind, e]
  have hlookOld : ∀ n, innerLookup st par.parent n = dLookup dOld n := by
    intro n
    rcases hcase with e | ⟨e, rfl⟩
    · exact innerLookup_of_dict e n
    · rw [innerLookup_of_none e n]
      rfl
  have hnew : dLookup (dSet st par.parent (.dict (dSet dOld par.name v.value))) par.parent
      = some (.dict (dSet dOld par.name v.value)) := by
    rw [dLookup_dSet, if_pos rfl]
  have hother : ∀ k, k ≠ par.parent →
      dLookup (dSet st par.parent (.dict (dSet dOld par.name v.value))) k = dLookup st k := by
    intro k hk
    rw [dLookup_dSet, if_neg hk]
  refine ⟨_, hstep, ?_, ?_, ?_⟩
  · constructor
    · rw [hother "time" (fun h => hpar h.symm)]
      exact hinv.1
    · intro k x hk hx
      by_cases hkp : k = par.parent
      · subst hkp
        rw [hnew] at hx
        exact ⟨_, (Option.some.inj hx).symm⟩
      · rw [hother k hkp] at hx
        exact hinv.2 k x hk hx
  · intro k n
    rw [hpath]
    by_cases hkp : k = par.parent
    · subst hkp
      rw [innerLookup_of_dict hnew n, dLookup_dSet]
      by_cases hnm : n = par.name
      · subst hnm
        rw [if_pos rfl, if_pos rfl]
      · rw [if_neg hnm, if_neg (by simp; exact fun h => hnm h.symm), hlookOld n]
    · rw [if_neg (by simp; intro h; exact absurd h.symm hkp)]
      unfold innerLookup
      rw [hother k hkp]
  · intro k
    rw [hparent]
    by_cases hkp : k = par.parent
    · subst hkp
      rw [hnew]
      simp
    · rw [hother k hkp]
      simp [Ne.symm hkp]

/-- A value resolves to parent `"time"` iff some first-match parameter with
its `value_id` has parent `"time"`. -/
theorem parentOf_eq_time_iff (ps : List Parameter) (v : Value) :
    parentOf ps v = some "time" ↔
      ∃ par, findParam ps v.value_id = some par ∧ par.parent = "time" := by
  simp [parentOf, Option.map_eq_some']

/-- Unfolding the loop one step when the step succeeds. -/
theorem buildFold_cons_ok {ps : List Parameter} {st st₁ : Status} {v : Value}
    (h : buildStep ps st v = .ok st₁) (vs : List Value) :
    buildFold ps st (v :: vs) = buildFold ps st₁ vs := by
  have heq : buildFold ps st (v :: vs)
      = (match buildStep ps st v with
        | Except.error e => (Except.error e : Except PyErr Status)
        | Except.ok st' => buildFold ps st' vs) := rfl
  rw [heq, h]

/-- Unfolding the loop one step when the step raises. -/
theorem buildFold_cons_err {ps : List Parameter} {st : Status} {v : Value} {e : PyErr}
    (h : buildStep ps st v = .error e) (vs : List Value) :
    buildFold ps st (v :: vs) = .error e := by
  have heq : buildFold ps st (v :: vs)
      = (match buildStep ps st v with
        | Except.error e => (Except.error e : Except PyErr Status)
        | Except.ok st' => buildFold ps st' vs) := rfl
  rw [heq, h]

/-- Characterization of a whole successful `_build_status` loop run over an
invariant-satisfying accumulator, when no value resolves to parent
`"time"`: the loop succeeds, the invariant holds at the end, every inner
cell holds its last write, and exactly the resolved parents were added. -/
theorem buildFold_ok_char (ps : List Parameter) (vs : List Value) :
    ∀ st now, StatusInv now st → NoTimeParent ps vs →
      ∃ st', buildFold ps st vs = .ok st' ∧ StatusInv now st' ∧
        (∀ k n, innerLookup st' k n = lastWrite ps vs k n (innerLookup st k n)) ∧
        (∀ k, (dLookup st' k).isSome ↔
          ((dLookup st k).isSome ∨ ∃ v ∈ vs, parentOf ps v = some k)) := by
  induction vs with
  | nil =>
    intro st now hinv _
    exact ⟨st, rfl, hinv, fun k n => rfl, fun k => by simp⟩
  | cons v vs ih =>
    intro st now hinv hnt
    rcases e : findParam ps v.value_id with _ | par
    · have hskip := buildStep_skip ps st v e
      have hpathv : pathOf ps v = none := by simp [pathOf, e]
      have hparv : parentOf ps v = none := by simp [parentOf, e]
      obtain ⟨st', hfold, hinv', hchar, hpres⟩ :=
        ih st now hinv (fun w hw => hnt w (List.mem_cons_of_mem v hw))
      refine ⟨st', ?_, hinv', ?_, ?_⟩
      · rw [buildFold_cons_ok hskip]
        exact hfold
      · intro k n
        rw [hchar k n]
        show lastWrite ps vs k n _
          = lastWrite ps vs k n
            (if pathOf ps v = some (k, n) then some v.value else innerLookup st k n)
        rw [hpathv]
        simp
      · intro k
        rw [hpres k]
        simp [hparv]
    · have hpar : par.parent ≠ "time" := by
        intro h
        exact hnt v (List.mem_cons_self v vs)
          ((parentOf_eq_time_iff ps v).mpr ⟨par, e, h⟩)
      obtain ⟨st₁, hstep, hinv₁, hstepChar, hstepPres⟩ :=
        buildStep_ok ps st v par now e hpar hinv
      obtain ⟨st', hfold, hinv', hchar, hpres⟩ :=
        ih st₁ now hinv₁ (fun w hw => hnt w (List.mem_cons_of_mem v hw))
      refine ⟨st', ?_, hinv', ?_, ?_⟩
      · rw [buildFold_cons_ok hstep]
        exact hfold
      · intro k n
        rw [hchar k n, hstepChar k n]
        rfl
      · intro k
        rw [hpres k, hstepPres k]
        constructor
        · rintro ((h | h) | h)
          · exact Or.inl h
          · exact Or.inr ⟨v, List.mem_cons_self v vs, h⟩
          · rcases h with ⟨w, hw, hwp⟩
            exact Or.inr ⟨w, List.mem_cons_of_mem v hw, hwp⟩
        · rintro (h | h)
          · exact Or.inl (Or.inl h)
          · rcases h with ⟨w, hw, hwp⟩
            rcases List.mem_cons.mp hw with rfl | hw'
            · exact Or.inl (Or.inr hwp)
            · exact Or.inr ⟨w, hw', hwp⟩

/-- When some supplied value resolves to parent `"time"`, the loop raises. -/
theorem buildFold_err (ps : List Parameter) (vs : List Value) :
    ∀ st now, StatusInv now st → (∃ v ∈ vs, parentOf ps v = some "time") →
      ∃ e, buildFold ps st vs = .error e := by
  induction vs with
  | nil =>
    intro st now _ h
    simp at h
  | cons v vs ih =>
    intro st now hinv h
    by_cases hv : parentOf ps v = some "time"
    · obtain ⟨par, hfind, htime⟩ := (parentOf_eq_time_iff ps v).mp hv
      have hstep : buildStep ps st v = .error .typeError := by
        simp [buildStep, hfind, htime, hinv.1]
      exact ⟨.typeError, buildFold_cons_err hstep vs⟩
    · have hvs : ∃ w ∈ vs, parentOf ps w = some "time" := by
        rcases h with ⟨w, hw, hwp⟩
        rcases List.mem_cons.mp hw with rfl | hw'
        · exact absurd hwp hv
        · exact ⟨w, hw', hwp⟩
      rcases e : findParam ps v.value_id with _ | par
      · obtain ⟨er, her⟩ := ih st now hinv hvs
        exact ⟨er, by rw [buildFold_cons_ok (buildStep_skip ps st v e)]; exact her⟩
      · have hpar : par.parent ≠ "time" := by
          intro ht
          exact hv ((parentOf_eq_time_iff ps v).mpr ⟨par, e, ht⟩)
        obtain ⟨st₁, hstep, hinv₁, -, -⟩ := buildStep_ok ps st v par now e hpar hinv
        obtain ⟨er, her⟩ := ih st₁ now hinv₁ hvs
        exact ⟨er, by rw [buildFold_cons_ok hstep]; exact her⟩

/-- When no supplied value writes a path, the cell keeps its initial value. -/
theorem lastWrite_eq_init (ps : List Parameter) (vs : List Value) (k n : String)
    (init : Option String) (h : ∀ v ∈ vs, pathOf ps v ≠ some (k, n)) :
    lastWrite ps vs k n init = init := by
  induction vs generalizing init with
  | nil => rfl
  | cons v vs ih =>
    have hstep : lastWrite ps (v :: vs) k n init
        = lastWrite ps vs k n (if pathOf ps v = some (k, n) then some v.value else init) := rfl
    rw [hstep, if_neg (h v (List.mem_cons_self v vs))]
    exact ih init (fun w hw => h w (List.mem_cons_of_mem v hw))

/-- When some supplied value writes a path, the final cell is the value of
one of the writers (whatever the initial cell held). -/
theorem lastWrite_total (ps : List Parameter) (vs : List Value) (k n : String) :
    ∀ init, (∃ w ∈ vs, pathOf ps w = some (k, n)) →
      ∃ u ∈ vs, pathOf ps u = some (k, n) ∧ lastWrite ps vs k n init = some u.value := by
  induction vs with
  | nil =>
    intro init h
    simp at h
  | cons v vs ih =>
    intro init h
    have hstep : lastWrite ps (v :: vs) k n init
        = lastWrite ps vs k n (if pathOf ps v = some (k, n) then some v.value else init) := rfl
    by_cases hvs : ∃ w ∈ vs, pathOf ps w = some (k, n)
    · obtain ⟨u, hu, hup, hul⟩ := ih _ hvs
      exact ⟨u, List.mem_cons_of_mem v hu, hup, by rw [hstep]; exact hul⟩
    · have hv : pathOf ps v = some (k, n) := by
        rcases h with ⟨w, hw, hwp⟩
        rcases List.mem_cons.mp hw with rfl | hw'
        · exact hwp
        · exact absurd ⟨w, hw', hwp⟩ hvs
      push_neg at hvs
      refine ⟨v, List.mem_cons_self v vs, hv, ?_⟩
      rw [hstep, if_pos hv]
      exact lastWrite_eq_init ps vs k n _ hvs

/-- Order-independence of the final cell contents under a permutation, when
no two distinct values write the same path. -/
theorem lastWrite_perm (ps : List Parameter) (vs₁ vs₂ : List Value) (k n : String)
    (hperm : vs₁.Perm vs₂) (hinj : PathInj ps vs₁) :
    lastWrite ps vs₁ k n none = lastWrite ps vs₂ k n none := by
  by_cases h : ∃ w ∈ vs₁, pathOf ps w = some (k, n)
  · obtain ⟨u₁, hm₁, hp₁, hl₁⟩ := lastWrite_total ps vs₁ k n none h
    obtain ⟨w, hw, hwp⟩ := h
    obtain ⟨u₂, hm₂, hp₂, hl₂⟩ :=
      lastWrite_total ps vs₂ k n none ⟨w, hperm.mem_iff.mp hw, hwp⟩
    have hu₂ : u₂ ∈ vs₁ := hperm.mem_iff.mpr hm₂
    have : u₂ = u₁ := hinj u₂ hu₂ u₁ hm₁ k n hp₂ hp₁
    rw [hl₁, hl₂, this]
  · push_neg at h
    rw [lastWrite_eq_init ps vs₁ k n none h,
      lastWrite_eq_init ps vs₂ k n none
        (fun w hw => h w (hperm.mem_iff.mpr hw))]

/-- The freshly seeded status dict satisfies the loop invariant. -/
theorem statusInv_init (now : String) : StatusInv now [("time", StatusVal.str now)] := by
  constructor
  · simp [dLookup]
  · intro k x hk hx
    simp [dLookup, Ne.symm hk] at hx

/-! # Claims -/

/-- C1, counterexample: at the very instant `now == expire_at` the claim
says the cached token is not used, but `Tokens.is_expired` tests
`expire_date < now` strictly, so `TokenAuth.token` returns the cached token
(second component `true` = no network call) even though `now < expire_at`
fails. -/
theorem token_cache_boundary_cex :
    token_flow (some ⟨Json.str "tok", 100⟩) 100 (.ok ⟨Json.str "fresh", 200⟩)
      = .ok (⟨Json.str "tok", 100⟩, true) ∧ ¬ ((100 : Int) < 100) :=
  ⟨rfl, by decide⟩

/-- C1, amended: for a username with a cached entry, `TokenAuth.token`
returns the cached token unchanged with no network call exactly when
`now <= expire_at`, and proceeds to a fresh login once `now > expire_at`;
at the instant `now == expire_at` the cached token IS used. -/
theorem token_cache_hit_iff (c : Tokens) (now : Int) (fresh : Except Unit Tokens) :
    token_flow (some c) now fresh
      = (if now ≤ c.expire_date then .ok (c, true)
          else fresh.map (fun t => (t, false))) ∧
    token_flow none now fresh = fresh.map (fun t => (t, false)) := by
  constructor
  · rcases le_or_lt now c.expire_date with h | h
    · simp [token_flow, Tokens.is_expired, h, not_lt.mpr h]
    · simp [token_flow, Tokens.is_expired, h, not_le.mpr h]
  · rfl

/-- C2 (code bug): the payload `"42"` is valid JSON but not an object, so
`_parse_set_payload` evaluates `data.get(...)` on an `int`, raising
`AttributeError`; the handler catches only `ValueError`, so the registered
message handler raises instead of logging and dropping. -/
theorem mqtt_handler_raises_cex :
    mqtt_on_message "42" = .error .attributeError := rfl

/-- C4 (code bug): a cache file containing `"[]"` is parseable JSON, but
`cache.get("expires_at")` on the decoded `list` raises `AttributeError`
(only `FileNotFoundError`, `json.JSONDecodeError` and `ValueError` are
caught), so `_load_cached_system_context` raises instead of returning
absent. -/
theorem system_context_load_raises_cex :
    load_cached_system_context (some "[]") 0 = .error .attributeError := rfl

/-- C6 (code bug): a token cache file containing `"[]"` parses as a `list`,
and `cache.get(username)` in `_load_cached_tokens` raises `AttributeError`,
which no `except` clause catches — contradicting "load(username) returns
either a Token or absent without raising for every cache-file content". -/
theorem token_cache_load_raises_cex :
    load_cached_tokens (some "[]") "alice" = .error .attributeError := rfl

/-- C7: MQTT settings resolution — `"mqtts://h"` gives host `h`, port 8883,
TLS on; `"h:1884"` gives host `h`, port 1884, TLS off; bare `"h"` gives
host `h`, port 1883, TLS off; a username of `"anonymous"` or `""`
normalizes to no credentials, and an empty password string to absent. -/
theorem mqtt_settings_resolution :
    resolve_mqtt_settings (some ⟨some "mqtts://h", none, none⟩)
      = .ok (some ⟨"h", 8883, none, none, true⟩) ∧
    resolve_mqtt_settings (some ⟨some "h:1884", none, none⟩)
      = .ok (some ⟨"h", 1884, none, none, false⟩) ∧
    resolve_mqtt_settings (some ⟨some "h", none, none⟩)
      = .ok (some ⟨"h", 1883, none, none, false⟩) ∧
    resolve_mqtt_settings (some ⟨some "h", some "anonymous", some "pw"⟩)
      = .ok (some ⟨"h", 1883, none, some "pw", false⟩) ∧
    resolve_mqtt_settings (some ⟨some "h", some "", some "pw"⟩)
      = .ok (some ⟨"h", 1883, none, some "pw", false⟩) ∧
    resolve_mqtt_settings (some ⟨some "h", some "u", some ""⟩)
      = .ok (some ⟨"h", 1883, some "u", none, false⟩) :=
  ⟨rfl, rfl, rfl, rfl, rfl, rfl⟩

/-- C8: command payload parsing returns `("X", "1")` both for the JSON
object payload and for the plain-text payload split once on the first
whitespace run, and fails with a parse failure (`ValueError`) on the empty
string and on a JSON object missing both the name and the value keys. -/
theorem command_payload_parsing :
    parse_set_payload "\x7b\"name\":\"X\",\"value\":\"1\"\x7d"
      = .ok (.str "X", .str "1") ∧
    parse_set_payload "X 1" = .ok (.str "X", .str "1") ∧
    parse_set_payload "" = .error (.valueError "empty payload") ∧
    parse_set_payload "\x7b\x7d"
      = .error (.valueError "JSON payload must contain name and value") :=
  ⟨rfl, rfl, rfl, rfl⟩

/-- C3, counterexample: the claim says a second `publish_status` on the
same non-persistent client performs a new connect before publishing; in
fact `_publish_status` calls `disconnect()` without ever clearing
`_wolf_connected`, so the second call publishes with no connect event at
all.  The first conjunct is the first publish on a fresh client, the
second is the subsequent publish on the client it returned, whose event
list contains no connect. -/
theorem publish_status_no_reconnect_cex :
    publish_status "s" false (configure_mqtt_client ⟨"h", 1883, none, none, false⟩)
      = .ok (⟨some ⟨"h", 1883, none, none, false⟩, true, false⟩,
          [.connect "h" 1883, .publish "wolf/status" "s", .disconnect]) ∧
    publish_status "s" false ⟨some ⟨"h", 1883, none, none, false⟩, true, false⟩
      = .ok (⟨some ⟨"h", 1883, none, none, false⟩, true, false⟩,
          [.publish "wolf/status" "s", .disconnect]) ∧
    ([MqttEvent.publish "wolf/status" "s", MqttEvent.disconnect].all
      (fun e => !e.isConnect)) = true :=
  ⟨rfl, rfl, rfl⟩

/-- C3, amended: `ensure_connected` is a no-op on a connected client,
connects with the cached settings when not connected, and for a
non-persistent client `publish_status` ends with a disconnect event
regardless of the publish outcome — but because the connected flag is
never cleared, a subsequent `publish_status` on the returned (connected)
client performs no new connect before publishing. -/
theorem mqtt_connection_lifecycle :
    (∀ c : MqttClient, c.connected = true → ensure_mqtt_connected c = .ok (c, [])) ∧
    (∀ (c : MqttClient) (s : MqttSettings), c.connected = false → c.settings = some s →
      ensure_mqtt_connected c
        = .ok (⟨some s, true, c.persistent⟩, [.connect s.host s.port])) ∧
    (∀ (payload : String) (pubFails : Bool) (c : MqttClient) (s : MqttSettings),
      c.settings = some s → c.persistent = false →
      ∃ evs, publish_status payload pubFails c = .ok (⟨some s, true, false⟩, evs) ∧
        evs.getLast? = some .disconnect) ∧
    (∀ (payload : String) (pubFails : Bool) (c : MqttClient),
      c.connected = true →
      ∃ evs, publish_status payload pubFails c = .ok (c, evs) ∧
        evs.all (fun e => !e.isConnect) = true) := by
  refine ⟨?_, ?_, ?_, ?_⟩
  · intro c hc
    simp [ensure_mqtt_connected, hc]
  · intro c s hc hs
    simp [ensure_mqtt_connected, hc, hs]
  · intro payload pubFails c s hs hp
    rcases hc : c.connected with _ | _
    · have hens : ensure_mqtt_connected c
          = .ok (⟨some s, true, c.persistent⟩, [.connect s.host s.port]) := by
        simp [ensure_mqtt_connected, hc, hs]
      cases pubFails
      · refine ⟨[.connect s.host s.port, .publish "wolf/status" payload, .disconnect],
          ?_, rfl⟩
        simp [publish_status, hens, hp]
      · refine ⟨[.connect s.host s.port, .disconnect], ?_, rfl⟩
        simp [publish_status, hens, hp]
    · have hcc : c = ⟨some s, true, false⟩ := by
        rcases c with ⟨cs, cc, cp⟩
        simp_all
      subst hcc
      have hens : ensure_mqtt_connected ⟨some s, true, false⟩
          = .ok (⟨some s, true, false⟩, []) := by
        simp [ensure_mqtt_connected]
      cases pubFails
      · refine ⟨[.publish "wolf/status" payload, .disconnect], ?_, rfl⟩
        simp [publish_status, hens]
      · refine ⟨[.disconnect], ?_, rfl⟩
        simp [publish_status, hens]
  · intro payload pubFails c hc
    have hens : ensure_mqtt_connected c = .ok (c, []) := by
      simp [ensure_mqtt_connected, hc]
    cases pubFails
    · rcases hp : c.persistent with _ | _
      · refine ⟨[.publish "wolf/status" payload, .disconnect], ?_, rfl⟩
        simp [publish_status, hens, hp]
      · refine ⟨[.publish "wolf/status" payload], ?_, rfl⟩
        simp [publish_status, hens, hp]
    · rcases hp : c.persistent with _ | _
      · refine ⟨[.disconnect], ?_, rfl⟩
        simp [publish_status, hens, hp]
      · refine ⟨[], ?_, rfl⟩
        simp [publish_status, hens, hp]

/-- C3, witness: the amended lifecycle theorem applied to a concrete
client. -/
theorem mqtt_connection_lifecycle_witness :
    ensure_mqtt_connected ⟨some ⟨"h", 1883, none, none, false⟩, true, false⟩
      = .ok (⟨some ⟨"h", 1883, none, none, false⟩, true, false⟩, []) ∧
    ensure_mqtt_connected ⟨some ⟨"h", 1883, none, none, false⟩, false, false⟩
      = .ok (⟨some ⟨"h", 1883, none, none, false⟩, true, false⟩, [.connect "h" 1883]) ∧
    (∃ evs, publish_status "s" true ⟨some ⟨"h", 1883, none, none, false⟩, false, false⟩
        = .ok (⟨some ⟨"h", 1883, none, none, false⟩, true, false⟩, evs) ∧
      evs.getLast? = some .disconnect) ∧
    (∃ evs, publish_status "s" false ⟨some ⟨"h", 1883, none, none, false⟩, true, false⟩
        = .ok (⟨some ⟨"h", 1883, none, none, false⟩, true, false⟩, evs) ∧
      evs.all (fun e => !e.isConnect) = true) :=
  ⟨mqtt_connection_lifecycle.1 _ rfl,
   mqtt_connection_lifecycle.2.1 _ _ rfl rfl,
   mqtt_connection_lifecycle.2.2.1 "s" true _ _ rfl rfl,
   mqtt_connection_lifecycle.2.2.2 "s" false _ rfl⟩

/-- C9: a write request whose parameter name has no exact match in the
catalog logs a warning (`true` flag) and issues no `write_value` call, and
the model is a total function (no exception); with duplicate names the
first catalog occurrence is the one written. -/
theorem write_path_resolution (g s : Int) (ps : List Parameter) (n v : String) :
    ((∀ p ∈ ps, p.name ≠ n) → set_parameter g s ps n v = (none, true)) ∧
    (∀ (l₁ : List Parameter) (p : Parameter) (l₂ : List Parameter),
      ps = l₁ ++ p :: l₂ → p.name = n → (∀ q ∈ l₁, q.name ≠ n) →
      set_parameter g s ps n v
        = (some ⟨g, s, p.bundle_id, p.value_id, v⟩, false)) := by
  constructor
  · intro h
    have hnone : ps.find? (fun p => p.name == n) = none := by
      rw [List.find?_eq_none]
      intro p hp
      simp [h p hp]
    simp [set_parameter, hnone]
  · intro l₁ p l₂ hps hp hmiss
    subst hps
    have hfind : (l₁ ++ p :: l₂).find? (fun q => q.name == n) = some p := by
      induction l₁ with
      | nil => simp [List.find?, hp]
      | cons q t ih =>
        have hq : (q.name == n) = false := by
          simp [hmiss q (List.mem_cons_self q t)]
        simp only [List.cons_append, List.find?]
        rw [hq]
        exact ih (fun r hr => hmiss r (List.mem_cons_of_mem q hr))
    simp [set_parameter, hfind]

/-- C9, witness: the resolution theorem applied to concrete catalogs — a
missing name issues no write, and with two parameters named `"A"` the
first one's ids are used. -/
theorem write_path_resolution_witness :
    set_parameter 7 8 [⟨"B", 0, 1, 2, false, "P"⟩] "Z" "1" = (none, true) ∧
    set_parameter 7 8 [⟨"A", 0, 1, 2, false, "P"⟩, ⟨"A", 0, 3, 4, false, "Q"⟩] "A" "1"
      = (some ⟨7, 8, 2, 1, "1"⟩, false) :=
  ⟨(write_path_resolution 7 8 [⟨"B", 0, 1, 2, false, "P"⟩] "Z" "1").1 (by decide),
   (write_path_resolution 7 8 [⟨"A", 0, 1, 2, false, "P"⟩, ⟨"A", 0, 3, 4, false, "Q"⟩]
      "A" "1").2 [] ⟨"A", 0, 1, 2, false, "P"⟩ [⟨"A", 0, 3, 4, false, "Q"⟩]
      rfl rfl (by simp)⟩

/-- C10: `_build_status` raises (a `TypeError`, from assigning into the
pre-seeded string at the top-level `"time"` key) exactly when some
supplied value's `value_id` resolves — by the loop's first-match lookup —
to a parameter whose parent is `"time"`; it returns normally only when no
resolved parameter has parent `"time"`. -/
theorem build_status_raises_iff_time_parent (now : String) (ps : List Parameter)
    (vs : List Value) :
    (∃ e, build_status now ps vs = .error e) ↔
      ∃ v ∈ vs, ∃ par, findParam ps v.value_id = some par ∧ par.parent = "time" := by
  constructor
  · rintro ⟨e, he⟩
    by_contra hno
    push_neg at hno
    have hnt : NoTimeParent ps vs := by
      intro v hv hp
      obtain ⟨par, hfind, htime⟩ := (parentOf_eq_time_iff ps v).mp hp
      exact hno v hv par hfind htime
    obtain ⟨st', hok, -, -, -⟩ :=
      buildFold_ok_char ps vs [("time", StatusVal.str now)] now (statusInv_init now) hnt
    rw [build_status] at he
    rw [hok] at he
    simp at he
  · rintro ⟨v, hv, par, hfind, htime⟩
    obtain ⟨e, he⟩ := buildFold_err ps vs [("time", StatusVal.str now)] now
      (statusInv_init now)
      ⟨v, hv, (parentOf_eq_time_iff ps v).mpr ⟨par, hfind, htime⟩⟩
    exact ⟨e, he⟩

/-- C5, counterexample: the two lists are permutations of the same set of
(distinct) Values, yet `_build_status` produces different mappings even
after ignoring the timestamp field, because both values resolve to the
same `(parent, name)` path and the last write wins. -/
theorem build_status_order_dependent_cex :
    ([⟨1, "a", ""⟩, ⟨1, "b", ""⟩] : List Value).Perm [⟨1, "b", ""⟩, ⟨1, "a", ""⟩] ∧
    ¬ exceptStatusEqIgnoringTime
      (build_status "t" [⟨"N", 0, 1, 0, false, "P"⟩] [⟨1, "a", ""⟩, ⟨1, "b", ""⟩])
      (build_status "t" [⟨"N", 0, 1, 0, false, "P"⟩] [⟨1, "b", ""⟩, ⟨1, "a", ""⟩]) := by
  constructor
  · exact List.Perm.swap _ _ _
  · intro h
    have h₁ : build_status "t" [⟨"N", 0, 1, 0, false, "P"⟩] [⟨1, "a", ""⟩, ⟨1, "b", ""⟩]
        = .ok [("time", .str "t"), ("P", .dict [("N", "b")])] := rfl
    have h₂ : build_status "t" [⟨"N", 0, 1, 0, false, "P"⟩] [⟨1, "b", ""⟩, ⟨1, "a", ""⟩]
        = .ok [("time", .str "t"), ("P", .dict [("N", "a")])] := rfl
    rw [h₁, h₂] at h
    have h' : statusEqIgnoringTime
        [("time", .str "t"), ("P", .dict [("N", "b")])]
        [("time", .str "t"), ("P", .dict [("N", "a")])] := h
    have hP := h' "P" (by decide)
    have e₁ : dLookup [("time", StatusVal.str "t"), ("P", StatusVal.dict [("N", "b")])] "P"
        = some (StatusVal.dict [("N", "b")]) := rfl
    have e₂ : dLookup [("time", StatusVal.str "t"), ("P", StatusVal.dict [("N", "a")])] "P"
        = some (StatusVal.dict [("N", "a")]) := rfl
    rw [e₁, e₂] at hP
    have hN : dLookup [("N", "b")] "N" = dLookup [("N", "a")] "N" := hP "N"
    simp [dLookup] at hN

/-- C5, amended: for every parameter catalog and every two value lists that
are permutations of each other, if no two distinct supplied values resolve
(by the loop's first `value_id` match) to the same `(parent, name)` path,
then `_build_status` either raises on both lists or produces identical
mappings once the timestamp field is ignored. -/
theorem build_status_perm_invariant (now₁ now₂ : String) (ps : List Parameter)
    (vs₁ vs₂ : List Value) (hperm : vs₁.Perm vs₂) (hinj : PathInj ps vs₁) :
    exceptStatusEqIgnoringTime (build_status now₁ ps vs₁) (build_status now₂ ps vs₂) := by
  by_cases htime : ∃ v ∈ vs₁, parentOf ps v = some "time"
  · obtain ⟨e₁, he₁⟩ := buildFold_err ps vs₁ [("time", StatusVal.str now₁)] now₁
      (statusInv_init now₁) htime
    obtain ⟨w, hw, hwp⟩ := htime
    obtain ⟨e₂, he₂⟩ := buildFold_err ps vs₂ [("time", StatusVal.str now₂)] now₂
      (statusInv_init now₂) ⟨w, hperm.mem_iff.mp hw, hwp⟩
    rw [build_status, build_status, he₁, he₂]
    exact trivial
  · push_neg at htime
    have hnt₁ : NoTimeParent ps vs₁ := htime
    have hnt₂ : NoTimeParent ps vs₂ := fun w hw => hnt₁ w (hperm.mem_iff.mpr hw)
    obtain ⟨s₁, hok₁, hinv₁, hchar₁, hpres₁⟩ :=
      buildFold_ok_char ps vs₁ [("time", StatusVal.str now₁)] now₁ (statusInv_init now₁) hnt₁
    obtain ⟨s₂, hok₂, hinv₂, hchar₂, hpres₂⟩ :=
      buildFold_ok_char ps vs₂ [("time", StatusVal.str now₂)] now₂ (statusInv_init now₂) hnt₂
    rw [build_status, build_status, hok₁, hok₂]
    show statusEqIgnoringTime s₁ s₂
    intro k hk
    have hinit₁ : dLookup [("time", StatusVal.str now₁)] k = none := by
      simp [dLookup, Ne.symm hk]
    have hinit₂ : dLookup [("time", StatusVal.str now₂)] k = none := by
      simp [dLookup, Ne.symm hk]
    have hpresEq : (dLookup s₁ k).isSome ↔ (dLookup s₂ k).isSome := by
      rw [hpres₁ k, hpres₂ k, hinit₁, hinit₂]
      simp only [Option.isSome_none, Bool.false_eq_true, false_or]
      constructor
      · rintro ⟨w, hw, hwp⟩
        exact ⟨w, hperm.mem_iff.mp hw, hwp⟩
      · rintro ⟨w, hw, hwp⟩
        exact ⟨w, hperm.mem_iff.mpr hw, hwp⟩
    have hinner : ∀ n, innerLookup s₁ k n = innerLookup s₂ k n := by
      intro n
      rw [hchar₁ k n, hchar₂ k n, innerLookup_of_none hinit₁ n,
        innerLookup_of_none hinit₂ n]
      exact lastWrite_perm ps vs₁ vs₂ k n hperm hinj
    rcases e₁ : dLookup s₁ k with _ | x₁
    · rcases e₂ : dLookup s₂ k with _ | x₂
      · exact trivial
      · rw [e₁, e₂] at hpresEq
        simp at hpresEq
    · rcases e₂ : dLookup s₂ k with _ | x₂
      · rw [e₁, e₂] at hpresEq
        simp at hpresEq
      · obtain ⟨d₁, rfl⟩ := hinv₁.2 k x₁ hk e₁
        obtain ⟨d₂, rfl⟩ := hinv₂.2 k x₂ hk e₂
        show ∀ n, dLookup d₁ n = dLookup d₂ n
        intro n
        have i₁ := innerLookup_of_dict e₁ n
        have i₂ := innerLookup_of_dict e₂ n
        rw [← i₁, ← i₂, hinner n]

/-- C5, witness: the order-independence theorem applied to two concrete
permuted lists with distinct paths. -/
theorem build_status_perm_invariant_witness :
    exceptStatusEqIgnoringTime
      (build_status "t1" [⟨"N", 0, 1, 0, false, "P"⟩, ⟨"M", 0, 2, 0, false, "Q"⟩]
        [⟨1, "a", ""⟩, ⟨2, "c", ""⟩])
      (build_status "t2" [⟨"N", 0, 1, 0, false, "P"⟩, ⟨"M", 0, 2, 0, false, "Q"⟩]
        [⟨2, "c", ""⟩, ⟨1, "a", ""⟩]) := by
  refine build_status_perm_invariant "t1" "t2" _ _ _ (List.Perm.swap _ _ _) ?_
  intro v₁ h₁ v₂ h₂ k n e₁ e₂
  have hpa : pathOf [(⟨"N", 0, 1, 0, false, "P"⟩ : Parameter), ⟨"M", 0, 2, 0, false, "Q"⟩]
      (⟨1, "a", ""⟩ : Value) = some ("P", "N") := rfl
  have hpc : pathOf [(⟨"N", 0, 1, 0, false, "P"⟩ : Parameter), ⟨"M", 0, 2, 0, false, "Q"⟩]
      (⟨2, "c", ""⟩ : Value) = some ("Q", "M") := rfl
  simp only [List.mem_cons, List.mem_singleton, List.not_mem_nil, or_false] at h₁ h₂
  rcases h₁ with rfl | rfl <;> rcases h₂ with rfl | rfl
  · rfl
  · rw [hpa] at e₁
    rw [hpc] at e₂
    rw [← e₂] at e₁
    simp at e₁
  · rw [hpc] at e₁
    rw [hpa] at e₂
    rw [← e₂] at e₁
    simp at e₁
  · rfl

end Wolf
